import Mathlib

/-!
Verification of the tudoh real-time presence layer.

Shallow embedding of:
- `src/client/src/main.ts`: map construction, `canMove` (collision),
  `detectRoom` (room presence), the per-frame movement resolution in
  `update`, `sendPosition`, and the `ws.onmessage` handler for `players`
  messages;
- `src/server/src/index.ts`: the connection registry (`players`,
  `sockets`), the dirty set, the `open`/`message`/`close` websocket
  handlers, and the broadcast tick.

JS `Map`s are modelled as association lists with insertion-order
semantics (`mapSet` replaces in place, `mapGet` finds the unique entry);
JS `Set`s as duplicate-free lists with insertion-order `setAdd`.
Positions are integers (the client only ever produces integer pixel
coordinates: multiples of the speed offset from the integer spawn), and
JS `Math.floor(a / b)` on them is `Int.fdiv`.
-/

namespace Tudoh

/-! ## Client constants (src/client/src/main.ts lines 1-4) -/

def TILE : Int := 32
def MAP_W : Int := 20
def MAP_H : Int := 15
def SPEED : Int := 3

/-! ## Rooms (src/client/src/main.ts lines 51-55) -/

structure Room where
  id : String
  name : String
  x : Int
  y : Int
  w : Int
  h : Int
deriving DecidableEq, Repr

def rooms : List Room :=
  [{ id := "room-a", name := "会議室A", x := 2, y := 2, w := 5, h := 4 },
   { id := "room-b", name := "会議室B", x := 13, y := 2, w := 5, h := 4 },
   { id := "room-c", name := "休憩室", x := 2, y := 9, w := 5, h := 4 }]

/-! ## Map construction (src/client/src/main.ts lines 44-71)

The base grid blocks the outer ring; the room-wall loop then writes `1`
into every border cell of every room except the bottom-center doorway.
The loop only writes `1`s, so the final grid is the base grid overridden
by each room's wall function in turn (fold order = source loop order,
and writes never conflict since they all write `1`). -/

def baseMap (ty tx : Int) : Nat :=
  if ty = 0 ∨ ty = MAP_H - 1 ∨ tx = 0 ∨ tx = MAP_W - 1 then 1 else 0

def addRoomWalls (room : Room) (m : Int → Int → Nat) : Int → Int → Nat :=
  fun ty tx =>
    if room.y ≤ ty ∧ ty < room.y + room.h ∧ room.x ≤ tx ∧ tx < room.x + room.w then
      let isTop := ty = room.y
      let isBottom := ty = room.y + room.h - 1
      let isLeft := tx = room.x
      let isRight := tx = room.x + room.w - 1
      let isDoor := isBottom ∧ tx = room.x + Int.fdiv room.w 2
      if (isTop ∨ isBottom ∨ isLeft ∨ isRight) ∧ ¬isDoor then 1 else m ty tx
    else m ty tx

def map : Int → Int → Nat :=
  rooms.foldl (fun m r => addRoomWalls r m) baseMap

/-! ## Collision (src/client/src/main.ts lines 153-166, `canMove`) -/

def corners (x y : Int) : List (Int × Int) :=
  let pad : Int := 4
  [(x + pad, y + pad),
   (x + TILE - pad - 1, y + pad),
   (x + pad, y + TILE - pad - 1),
   (x + TILE - pad - 1, y + TILE - pad - 1)]

def canMove (x y : Int) : Bool :=
  (corners x y).all fun c =>
    let tx := Int.fdiv c.1 TILE
    let ty := Int.fdiv c.2 TILE
    decide (0 ≤ tx ∧ tx < MAP_W ∧ 0 ≤ ty ∧ ty < MAP_H ∧ map ty tx = 0)

/-- Spec-side reading of one corner check: the corner's cell (by
floor-division by tile size) is in-bounds and walkable. -/
def cornerOk (c : Int × Int) : Prop :=
  0 ≤ Int.fdiv c.1 TILE ∧ Int.fdiv c.1 TILE < MAP_W ∧
  0 ≤ Int.fdiv c.2 TILE ∧ Int.fdiv c.2 TILE < MAP_H ∧
  map (Int.fdiv c.2 TILE) (Int.fdiv c.1 TILE) = 0

/-! ## Room detection (src/client/src/main.ts lines 169-178) -/

def centerCol (x : Int) : Int := Int.fdiv (x + Int.fdiv TILE 2) TILE

def centerRow (y : Int) : Int := Int.fdiv (y + Int.fdiv TILE 2) TILE

def roomContains (room : Room) (cx cy : Int) : Bool :=
  decide (room.x ≤ cx ∧ cx < room.x + room.w ∧ room.y ≤ cy ∧ cy < room.y + room.h)

def detectRoomAux (cx cy : Int) : List Room → Option String
  | [] => none
  | room :: rest =>
    if roomContains room cx cy then some room.id else detectRoomAux cx cy rest

def detectRoom (x y : Int) : Option String :=
  detectRoomAux (centerCol x) (centerRow y) rooms

/-! ## Per-frame movement (src/client/src/main.ts lines 254-267) -/

structure Keys where
  up : Bool
  down : Bool
  left : Bool
  right : Bool
deriving DecidableEq, Repr

/-- Candidate displacement of one frame: the `nx`/`ny` accumulation of
`update` (up, down, then left, right). -/
def candidate (k : Keys) (px py : Int) : Int × Int :=
  let ny := py + (if k.up then -SPEED else 0)
  let ny := ny + (if k.down then SPEED else 0)
  let nx := px + (if k.left then -SPEED else 0)
  let nx := nx + (if k.right then SPEED else 0)
  (nx, ny)

/-- Position commit of `update`: `if (canMove(nx, py)) px = nx;
if (canMove(px, ny)) py = ny;` — the vertical test reads the already
updated `px`. -/
def updatePos (k : Keys) (px py : Int) : Int × Int :=
  let c := candidate k px py
  let px1 := if canMove c.1 py then c.1 else px
  let py1 := if canMove px1 c.2 then c.2 else py
  (px1, py1)

/-- The claim's reading of the commit: the vertical delta is tested at
the OLD x (`canOccupy(oldX, newY)`), independent of the horizontal
outcome. Written from the spec's words, to compare with `updatePos`. -/
def updatePosClaimed (k : Keys) (px py : Int) : Int × Int :=
  let c := candidate k px py
  let px1 := if canMove c.1 py then c.1 else px
  let py1 := if canMove px c.2 then c.2 else py
  (px1, py1)

/-! ## Outbound move send (src/client/src/main.ts lines 141-150) -/

structure SendCtx where
  wsOpen : Bool
  px : Int
  py : Int
  facing : String
  walking : Bool
  lastSentX : Int
  lastSentY : Int
deriving DecidableEq, Repr

structure MoveOut where
  x : Int
  y : Int
  name : String
  facing : String
  walking : Bool
deriving DecidableEq, Repr

/-- `sendPosition`: returns early (no message) when the socket is not
open, or when `px === lastSentX && py === lastSentY && !walking`;
otherwise records the sent position and emits one move message. -/
def sendPosition (st : SendCtx) : SendCtx × Option MoveOut :=
  if st.wsOpen = false then (st, none)
  else if st.px = st.lastSentX ∧ st.py = st.lastSentY ∧ st.walking = false then (st, none)
  else ({ st with lastSentX := st.px, lastSentY := st.py },
        some { x := st.px, y := st.py, name := "Player",
               facing := st.facing, walking := st.walking })

/-! ## Server data model (src/server/src/index.ts lines 3-22) -/

structure Player where
  id : String
  x : Int
  y : Int
  name : String
  facing : String
  walking : Bool
deriving DecidableEq, Repr

structure MoveMsg where
  x : Int
  y : Int
  name : Option String
  facing : Option String
  walking : Option Bool
deriving DecidableEq, Repr

inductive ClientMsg where
  | move (m : MoveMsg)
  | other
deriving DecidableEq, Repr

inductive ServerMsg where
  | welcome (id : String)
  | players (ps : List Player) (full : Bool)
  | leave (id : String)
deriving DecidableEq, Repr

/-- JS `Map.set`: replace in place if the key exists, else append. -/
def mapSet (k : String) (v : Player) : List (String × Player) → List (String × Player)
  | [] => [(k, v)]
  | e :: rest => if e.1 = k then (k, v) :: rest else e :: mapSet k v rest

/-- JS `Map.get`. -/
def mapGet (k : String) : List (String × Player) → Option Player
  | [] => none
  | e :: rest => if e.1 = k then some e.2 else mapGet k rest

/-- JS `Map.delete` (keys are unique by construction, so removing every
entry with the key equals removing the one entry). -/
def mapDelete (k : String) (l : List (String × Player)) : List (String × Player) :=
  l.filter fun e => e.1 ≠ k

/-- JS `Set.add`: append if absent, keep position if present. -/
def setAdd (k : String) (s : List String) : List String :=
  if k ∈ s then s else s ++ [k]

/-- JS `Map.delete` on the sockets map, keys only. -/
def setDelete (k : String) (s : List String) : List String :=
  s.filter fun x => x ≠ k

structure ServerState where
  players : List (String × Player)
  sockets : List String
  dirty : List String
deriving DecidableEq, Repr

/-- Registry entries are keyed consistently: the stored player's `id`
field equals its map key (the `message` handler always writes
`players.set(id, {id, ...})`). -/
def WfPlayers (l : List (String × Player)) : Prop := ∀ e ∈ l, e.2.id = e.1

/-- Player built by the `move` branch of the `message` handler, with the
`?? ` defaults for missing optional fields. -/
def playerOfMove (id : String) (m : MoveMsg) : Player :=
  { id := id, x := m.x, y := m.y, name := m.name.getD "???",
    facing := m.facing.getD "down", walking := m.walking.getD false }

/-- `open(ws)` (src/server/src/index.ts lines 59-76): register the
socket, send `welcome` then the full `players` snapshot to the new
connection. The `players` registry is NOT touched. -/
def onOpen (id : String) (st : ServerState) : ServerState × List (String × ServerMsg) :=
  let st1 := { st with sockets := setAdd id st.sockets }
  (st1, [(id, ServerMsg.welcome id),
         (id, ServerMsg.players (st.players.map Prod.snd) true)])

/-- The `move` branch of `message` (lines 82-93): overwrite the entry
and mark the sender dirty. -/
def onMove (id : String) (m : MoveMsg) (st : ServerState) : ServerState :=
  { st with players := mapSet id (playerOfMove id m) st.players,
            dirty := setAdd id st.dirty }

/-- `message(ws, raw)` (lines 78-94). `raw = none` models a payload on
which `JSON.parse` throws: the exception propagates out of the handler
before any state mutation, so the handler has no effect and sends
nothing (Bun logs the error; the socket is not closed). A parsed message
of any type other than `"move"` is ignored. -/
def onMessage (id : String) (raw : Option ClientMsg) (st : ServerState) :
    ServerState × List (String × ServerMsg) :=
  match raw with
  | none => (st, [])
  | some (ClientMsg.move m) => (onMove id m st, [])
  | some ClientMsg.other => (st, [])

/-- `close(ws)` (lines 96-108): delete the registry entry and the
socket, then send one `leave` message to every remaining socket. The
dirty set is not touched. -/
def onClose (id : String) (st : ServerState) : ServerState × List (String × ServerMsg) :=
  let st1 := { st with players := mapDelete id st.players,
                       sockets := setDelete id st.sockets }
  (st1, st1.sockets.map fun s => (s, ServerMsg.leave id))

/-- The updates list a tick builds from the dirty set (lines 27-31):
each dirty id resolved through the registry, misses silently skipped. -/
def tickUpdates (st : ServerState) : List Player :=
  st.dirty.filterMap fun i => mapGet i st.players

/-- The broadcast tick (lines 24-38): nothing when the dirty set is
empty; otherwise build the updates, clear the dirty set, and send the
same `players` message to every socket. The wire message carries no
`full` field, modelled as `full := false`. -/
def tick (st : ServerState) : ServerState × List (String × ServerMsg) :=
  if st.dirty.isEmpty then (st, [])
  else ({ st with dirty := [] },
        st.sockets.map fun s => (s, ServerMsg.players (tickUpdates st) false))

/-- A run of `message` handlings between two ticks: fold `onMove` over a
list of (senderId, payload) move events. -/
def applyMoves (evs : List (String × MoveMsg)) (st : ServerState) : ServerState :=
  evs.foldl (fun s e => onMove e.1 e.2 s) st

/-! ## Client-side inbound handling (src/client/src/main.ts lines 103-128) -/

/-- An entry of an inbound `players` message as the client reads it:
`facing`/`walking` may be absent (the client applies `?? ` defaults). -/
structure NetPlayer where
  id : String
  x : Int
  y : Int
  name : String
  facing : Option String
  walking : Option Bool
deriving DecidableEq, Repr

structure OtherPlayer where
  x : Int
  y : Int
  name : String
  facing : String
  walking : Bool
deriving DecidableEq, Repr

structure ClientState where
  myId : String
  px : Int
  py : Int
  facing : String
  walking : Bool
  others : List (String × OtherPlayer)
deriving DecidableEq, Repr

def othersSet (k : String) (v : OtherPlayer) :
    List (String × OtherPlayer) → List (String × OtherPlayer)
  | [] => [(k, v)]
  | e :: rest => if e.1 = k then (k, v) :: rest else e :: othersSet k v rest

def othersGet (k : String) : List (String × OtherPlayer) → Option OtherPlayer
  | [] => none
  | e :: rest => if e.1 = k then some e.2 else othersGet k rest

/-- One iteration of the `for (const p of msg.players)` loop: upsert
into `others` unless the entry's id is the client's own id. -/
def applyNetPlayer (myId : String) (o : List (String × OtherPlayer)) (p : NetPlayer) :
    List (String × OtherPlayer) :=
  if p.id ≠ myId then
    othersSet p.id { x := p.x, y := p.y, name := p.name,
                     facing := p.facing.getD "down",
                     walking := p.walking.getD false } o
  else o

/-- The `msg.type === "players"` branch of `ws.onmessage`: it iterates
the entries in order and touches only `others` (the `full` flag is not
read; local `px`/`py`/`facing`/`walking` are not touched). -/
def onPlayersMsg (ps : List NetPlayer) (st : ClientState) : ClientState :=
  { st with others := ps.foldl (applyNetPlayer st.myId) st.others }

/-! ## Concrete states used by witnesses -/

def c1St : ServerState := { players := [], sockets := ["s1"], dirty := [] }

def c1Move1 : MoveMsg := { x := 1, y := 2, name := none, facing := none, walking := none }

def c1Move2 : MoveMsg :=
  { x := 3, y := 4, name := some "Ann", facing := some "left", walking := some true }

def c1Evs : List (String × MoveMsg) := [("a", c1Move1), ("a", c1Move2)]

def c2St : ServerState :=
  { players := [("a", { id := "a", x := 1, y := 2, name := "A", facing := "down", walking := false }),
                ("b", { id := "b", x := 3, y := 4, name := "B", facing := "up", walking := true })],
    sockets := ["a", "b"],
    dirty := ["a"] }

def c7RoomA : Room := { id := "room-a", name := "会議室A", x := 2, y := 2, w := 5, h := 4 }

def c10St : SendCtx :=
  { wsOpen := true, px := 100, py := 64, facing := "up", walking := false,
    lastSentX := 97, lastSentY := 64 }

def c10WalkSt : SendCtx :=
  { wsOpen := true, px := 323, py := 224, facing := "right", walking := true,
    lastSentX := 320, lastSentY := 224 }

def diagKeys : Keys := { up := false, down := true, left := false, right := true }

/-! ## Association-list and set lemmas -/

theorem mapGet_mapSet_self (k : String) (v : Player) (l : List (String × Player)) :
    mapGet k (mapSet k v l) = some v := by
  induction l with
  | nil => simp [mapSet, mapGet]
  | cons e rest ih =>
    by_cases h : e.1 = k
    · simp [mapSet, mapGet, h]
    · simp [mapSet, mapGet, h, ih]

theorem mapGet_mapSet_ne (k k' : String) (v : Player) (l : List (String × Player))
    (h : k' ≠ k) : mapGet k (mapSet k' v l) = mapGet k l := by
  induction l with
  | nil => simp [mapSet, mapGet, h]
  | cons e rest ih =>
    by_cases he : e.1 = k'
    · have hek : e.1 ≠ k := he ▸ h
      simp [mapSet, mapGet, he, h, hek]
    · by_cases hek : e.1 = k
      · simp [mapSet, mapGet, he, hek, Ne.symm h]
      · simp [mapSet, mapGet, he, hek, ih]

theorem wfPlayers_tail {e : String × Player} {l : List (String × Player)}
    (hw : WfPlayers (e :: l)) : WfPlayers l :=
  fun f hf => hw f (List.mem_cons_of_mem _ hf)

theorem wfPlayers_mapSet {l : List (String × Player)} (hw : WfPlayers l)
    (k : String) (v : Player) (hv : v.id = k) : WfPlayers (mapSet k v l) := by
  induction l with
  | nil =>
    intro e he
    simp [mapSet] at he
    subst he
    exact hv
  | cons e0 rest ih =>
    by_cases h : e0.1 = k
    · intro e he
      rw [show mapSet k v (e0 :: rest) = (k, v) :: rest from by simp [mapSet, h]] at he
      rcases List.mem_cons.mp he with rfl | hmem
      · exact hv
      · exact wfPlayers_tail hw e hmem
    · intro e he
      rw [show mapSet k v (e0 :: rest) = e0 :: mapSet k v rest from by simp [mapSet, h]] at he
      rcases List.mem_cons.mp he with rfl | hmem
      · exact hw e (List.mem_cons_self _ _)
      · exact ih (wfPlayers_tail hw) e hmem

theorem mapGet_wf {l : List (String × Player)} (hw : WfPlayers l) {k : String} {p : Player}
    (h : mapGet k l = some p) : p.id = k := by
  induction l with
  | nil => simp [mapGet] at h
  | cons e rest ih =>
    by_cases he : e.1 = k
    · rw [show mapGet k (e :: rest) = some e.2 from by simp [mapGet, he]] at h
      have hp : e.2 = p := by injection h
      rw [← hp, hw e (List.mem_cons_self _ _), he]
    · rw [show mapGet k (e :: rest) = mapGet k rest from by simp [mapGet, he]] at h
      exact ih (wfPlayers_tail hw) h

theorem mapGet_mapDelete_self (k : String) (l : List (String × Player)) :
    mapGet k (mapDelete k l) = none := by
  induction l with
  | nil => rfl
  | cons e rest ih =>
    by_cases he : e.1 = k
    · simpa [mapDelete, List.filter_cons, he] using ih
    · simpa [mapDelete, List.filter_cons, he, mapGet] using ih

theorem wfPlayers_mapDelete {l : List (String × Player)} (hw : WfPlayers l) (k : String) :
    WfPlayers (mapDelete k l) :=
  fun e he => hw e (List.mem_filter.mp he).1

theorem mem_setAdd_self (k : String) (s : List String) : k ∈ setAdd k s := by
  unfold setAdd
  split
  · assumption
  · simp

theorem mem_setAdd_of_mem {a : String} {s : List String} (h : a ∈ s) (k : String) :
    a ∈ setAdd k s := by
  unfold setAdd
  split
  · exact h
  · exact List.mem_append_left _ h

theorem nodup_setAdd {s : List String} (h : s.Nodup) (k : String) : (setAdd k s).Nodup := by
  unfold setAdd
  split
  · exact h
  · rename_i hk
    rw [List.nodup_append]
    refine ⟨h, List.nodup_singleton k, ?_⟩
    intro a ha hak
    rw [List.mem_singleton] at hak
    exact hk (hak ▸ ha)

theorem filter_eq_singleton_of_nodup {l : List String} (hnd : l.Nodup) {A : String}
    (hA : A ∈ l) : l.filter (fun b => b = A) = [A] := by
  induction l with
  | nil => cases hA
  | cons a rest ih =>
    rw [List.nodup_cons] at hnd
    by_cases ha : a = A
    · subst ha
      rw [List.filter_cons_of_pos (by simp)]
      have hrest : rest.filter (fun b => b = a) = [] := by
        rw [List.filter_eq_nil_iff]
        intro b hb
        simp only [decide_eq_true_eq]
        intro hba
        exact hnd.1 (hba ▸ hb)
      rw [hrest]
    · rw [List.filter_cons_of_neg (by simp [ha])]
      have hA' : A ∈ rest := by
        rcases List.mem_cons.mp hA with rfl | h
        · exact absurd rfl ha
        · exact h
      exact ih hnd.2 hA'

theorem filterMap_mapGet_filter (A : String) (ps : List (String × Player))
    (hw : WfPlayers ps) (l : List String) :
    (l.filterMap fun i => mapGet i ps).filter (fun p => p.id = A)
      = (l.filter fun b => b = A).filterMap fun i => mapGet i ps := by
  induction l with
  | nil => rfl
  | cons b rest ih =>
    cases h : mapGet b ps with
    | none =>
      rw [List.filterMap_cons_none (f := fun i => mapGet i ps) h]
      by_cases hb : b = A
      · rw [List.filter_cons_of_pos (by simp [hb]),
            List.filterMap_cons_none (f := fun i => mapGet i ps) h, ih]
      · rw [List.filter_cons_of_neg (by simp [hb]), ih]
    | some p =>
      have hid : p.id = b := mapGet_wf hw h
      rw [List.filterMap_cons_some (f := fun i => mapGet i ps) h]
      by_cases hb : b = A
      · rw [List.filter_cons_of_pos (by simp [hid, hb]),
            List.filter_cons_of_pos (by simp [hb]),
            List.filterMap_cons_some (f := fun i => mapGet i ps) h, ih]
      · rw [List.filter_cons_of_neg (by simp [hid, hb]),
            List.filter_cons_of_neg (by simp [hb]), ih]

theorem filterMap_mapGet_none {A : String} {ps : List (String × Player)}
    (h : mapGet A ps = none) (l : List String) (hl : ∀ b ∈ l, b = A) :
    (l.filterMap fun i => mapGet i ps) = [] := by
  induction l with
  | nil => rfl
  | cons b rest ih =>
    have hb : b = A := hl b (List.mem_cons_self _ _)
    subst hb
    rw [List.filterMap_cons_none (f := fun i => mapGet i ps) h]
    exact ih fun b hb => hl b (List.mem_cons_of_mem _ hb)

theorem filter_fst_of_map {f : String → String × ServerMsg} (hf : ∀ x, (f x).1 = x)
    (l : List String) (s : String) :
    ((l.map f).filter fun e => e.1 = s) = (l.filter fun x => x = s).map f := by
  induction l with
  | nil => rfl
  | cons a rest ih =>
    by_cases ha : a = s
    · rw [List.map_cons, List.filter_cons_of_pos (by simp [hf, ha]),
          List.filter_cons_of_pos (by simp [ha]), List.map_cons, ih]
    · rw [List.map_cons, List.filter_cons_of_neg (by simp [hf, ha]),
          List.filter_cons_of_neg (by simp [ha]), ih]

/-! ## Lemmas about runs of move handlings -/

theorem applyMoves_cons (e : String × MoveMsg) (evs : List (String × MoveMsg))
    (st : ServerState) : applyMoves (e :: evs) st = applyMoves evs (onMove e.1 e.2 st) := rfl

theorem applyMoves_append (evs : List (String × MoveMsg)) (e : String × MoveMsg)
    (st : ServerState) :
    applyMoves (evs ++ [e]) st = onMove e.1 e.2 (applyMoves evs st) := by
  simp [applyMoves, List.foldl_append]

theorem applyMoves_wf (evs : List (String × MoveMsg)) :
    ∀ st : ServerState, WfPlayers st.players → WfPlayers (applyMoves evs st).players := by
  induction evs with
  | nil => intro st h; exact h
  | cons e rest ih =>
    intro st h
    rw [applyMoves_cons]
    exact ih _ (wfPlayers_mapSet h e.1 _ rfl)

theorem applyMoves_nodup (evs : List (String × MoveMsg)) :
    ∀ st : ServerState, st.dirty.Nodup → (applyMoves evs st).dirty.Nodup := by
  induction evs with
  | nil => intro st h; exact h
  | cons e rest ih =>
    intro st h
    rw [applyMoves_cons]
    exact ih _ (nodup_setAdd h e.1)

theorem applyMoves_dirty_mem (A : String) (evs : List (String × MoveMsg)) :
    ∀ st : ServerState, (A ∈ st.dirty ∨ ∃ e ∈ evs, e.1 = A) →
      A ∈ (applyMoves evs st).dirty := by
  induction evs with
  | nil =>
    intro st h
    rcases h with h | ⟨e, he, _⟩
    · exact h
    · cases he
  | cons e rest ih =>
    intro st h
    rw [applyMoves_cons]
    apply ih
    rcases h with h | ⟨f, hf, hfA⟩
    · exact Or.inl (mem_setAdd_of_mem h e.1)
    · rcases List.mem_cons.mp hf with rfl | hf'
      · exact Or.inl (hfA ▸ mem_setAdd_self f.1 st.dirty)
      · exact Or.inr ⟨f, hf', hfA⟩

theorem applyMoves_getLast (A : String) (m : MoveMsg) (evs : List (String × MoveMsg)) :
    ∀ st : ServerState, ((evs.filter fun e => e.1 = A).getLast? = some (A, m)) →
      mapGet A (applyMoves evs st).players = some (playerOfMove A m) := by
  induction evs using List.reverseRecOn with
  | nil => intro st h; simp at h
  | append_singleton evs e ih =>
    intro st h
    rw [List.filter_append] at h
    by_cases hb : e.1 = A
    · rw [show List.filter (fun e => decide (e.1 = A)) [e] = [e] from by simp [hb]] at h
      rw [List.getLast?_concat] at h
      have he : e = (A, m) := by injection h
      subst he
      rw [applyMoves_append]
      exact mapGet_mapSet_self A _ _
    · rw [show List.filter (fun e => decide (e.1 = A)) [e] = [] from by simp [hb],
          List.append_nil] at h
      rw [applyMoves_append]
      rw [show (onMove e.1 e.2 (applyMoves evs st)).players
            = mapSet e.1 (playerOfMove e.1 e.2) (applyMoves evs st).players from rfl]
      rw [mapGet_mapSet_ne A e.1 _ _ hb]
      exact ih st h

/-! ## Claims -/

/-- C3, counterexample: `open` registers the socket only — on a fresh
server, after the handler for connection "c1" runs, the `players`
registry has NO entry for "c1" (an avatar entry is only created by the
first `move` message), contradicting the claim that a default avatar
state entry is created on open. -/
theorem onOpen_creates_no_registry_entry :
    mapGet "c1" (onOpen "c1" { players := [], sockets := [], dirty := [] }).1.players
      = none := rfl

/-- C3, amended: when a connection opens, the server registers the
connection's socket but creates no avatar registry entry (the entry
appears on the first move message); it sends that connection a welcome
message with its assigned id followed by a full snapshot (`full: true`)
of all current registry entries. -/
theorem onOpen_welcome_then_full_snapshot (id : String) (st : ServerState) :
    (onOpen id st).2
      = [(id, ServerMsg.welcome id),
         (id, ServerMsg.players (st.players.map Prod.snd) true)]
    ∧ (onOpen id st).1.players = st.players
    ∧ (onOpen id st).1.dirty = st.dirty
    ∧ id ∈ (onOpen id st).1.sockets :=
  ⟨rfl, rfl, rfl, mem_setAdd_self id st.sockets⟩

/-- C4, counterexample: the claim says the vertical delta is tested at
the old x (`canOccupy(oldX, newY)`), but `update` tests it at the
already-committed x (`canMove(px, ny)` after `px` may have moved). At
position (387, 35) with down+right held, the code blocks the vertical
move (the corner cell (13,2) is room-b wall) while the claim's reading
allows it: the two disagree. -/
theorem update_vertical_test_not_old_x :
    updatePos diagKeys 387 35 ≠ updatePosClaimed diagKeys 387 35 := by
  decide

/-- C4, amended: movement is resolved per axis: the horizontal delta is
attempted first by testing `canOccupy(newX, oldY)`, then the vertical
delta by testing `canOccupy` at the RESOLVED x (the x just committed by
the horizontal attempt) and `newY`; consequently, if a diagonal move's
combined target is blocked but one axis alone is not, the avatar
advances along the unblocked axis only (sliding). -/
theorem update_per_axis_sliding (k : Keys) (px py : Int) :
    (updatePos k px py).1
      = (if canMove (candidate k px py).1 py then (candidate k px py).1 else px)
    ∧ (updatePos k px py).2
      = (if canMove (updatePos k px py).1 (candidate k px py).2
          then (candidate k px py).2 else py)
    ∧ (canMove (candidate k px py).1 py = true →
        canMove (candidate k px py).1 (candidate k px py).2 = false →
        updatePos k px py = ((candidate k px py).1, py))
    ∧ (canMove (candidate k px py).1 py = false →
        canMove px (candidate k px py).2 = true →
        updatePos k px py = (px, (candidate k px py).2)) := by
  refine ⟨rfl, rfl, ?_, ?_⟩
  · intro h1 h2
    simp [updatePos, h1, h2]
  · intro h1 h2
    simp [updatePos, h1, h2]

theorem update_per_axis_sliding_witness :
    canMove (candidate diagKeys 387 35).1 35 = true
    ∧ canMove (candidate diagKeys 387 35).1 (candidate diagKeys 387 35).2 = false
    ∧ updatePos diagKeys 387 35 = ((candidate diagKeys 387 35).1, 35) :=
  ⟨by decide, by decide,
   (update_per_axis_sliding diagKeys 387 35).2.2.1 (by decide) (by decide)⟩

/-- C5: `canMove` accepts a position iff all four corners of the inset
square (tile bounds inset by the fixed padding) map by floor-division by
the tile size to in-bounds walkable cells; equivalently it rejects
whenever any corner maps to an out-of-bounds or blocked cell. -/
theorem canMove_iff_all_corners (x y : Int) :
    canMove x y = true ↔ ∀ c ∈ corners x y, cornerOk c := by
  simp [canMove, cornerOk, List.all_eq_true]

/-- C6: `detectRoom` samples the cell containing the avatar's center
point (position plus half a tile in each axis), returns the first room
in the fixed `rooms` order whose rectangle contains that cell, and
returns `none` whenever the center cell lies in no room rectangle. -/
theorem detectRoom_center_first_match (x y : Int) :
    detectRoom x y
      = (rooms.find? fun r => roomContains r (centerCol x) (centerRow y)).map Room.id
    ∧ ((∀ r ∈ rooms, roomContains r (centerCol x) (centerRow y) = false) →
        detectRoom x y = none) := by
  have haux : ∀ rs : List Room, detectRoomAux (centerCol x) (centerRow y) rs
      = (rs.find? fun r => roomContains r (centerCol x) (centerRow y)).map Room.id := by
    intro rs
    induction rs with
    | nil => rfl
    | cons r rest ih =>
      by_cases h : roomContains r (centerCol x) (centerRow y) = true
      · rw [detectRoomAux, if_pos h,
            List.find?_cons_of_pos (p := fun r => roomContains r (centerCol x) (centerRow y)) _ h,
            Option.map]
      · rw [detectRoomAux, if_neg h,
            List.find?_cons_of_neg (p := fun r => roomContains r (centerCol x) (centerRow y)) _ h,
            ih]
  constructor
  · exact haux rooms
  · intro h
    rw [detectRoom, haux rooms, List.find?_eq_none.mpr fun r hr => by simp [h r hr]]
    rfl

theorem detectRoom_center_first_match_witness :
    (∀ r ∈ rooms, roomContains r (centerCol 320) (centerRow 224) = false)
    ∧ detectRoom 320 224 = none :=
  ⟨by decide, (detectRoom_center_first_match 320 224).2 (by decide)⟩

/-- C9: a malformed inbound message (one on which `JSON.parse` throws,
modelled as `raw = none`) leaves the whole server state — registry,
sockets, dirty set — unchanged and produces no outbound delivery: the
sender stays registered and no other connection is affected. -/
theorem malformed_message_is_noop (id : String) (st : ServerState) :
    (onMessage id none st).1.players = st.players
    ∧ (onMessage id none st).1.sockets = st.sockets
    ∧ (onMessage id none st).1.dirty = st.dirty
    ∧ (onMessage id none st).2 = [] :=
  ⟨rfl, rfl, rfl, rfl⟩

/-- C10, counterexample: the claim says a move is sent whenever
position, facing, or walking changed, and suppressed when nothing
changed. In the code the guard is
`px === lastSentX && py === lastSentY && !walking`: after a frame that
sent `walking := true`, a frame in which walking changes to `false`
with the position unchanged sends nothing — a walking change that is
never sent. -/
theorem sendPosition_skips_walking_stop :
    (sendPosition c10WalkSt).2
      = some { x := 323, y := 224, name := "Player", facing := "right", walking := true }
    ∧ (sendPosition { (sendPosition c10WalkSt).1 with walking := false }).2 = none := by
  constructor <;> rfl

/-- C10, amended: the client attempts at most one send per frame
(`sendPosition` returns at most one message); a message is produced iff
the socket is open and NOT (position equals the last-sent position and
walking is false). So while walking, a message goes out every frame even
if nothing changed, and a facing or walking change with unchanged
position and walking now false is not sent. A sent message carries the
current position/facing/walking and updates the last-sent position. -/
theorem sendPosition_guard (st : SendCtx) :
    ((sendPosition st).2 ≠ none
      ↔ st.wsOpen = true
        ∧ ¬(st.px = st.lastSentX ∧ st.py = st.lastSentY ∧ st.walking = false))
    ∧ (∀ m, (sendPosition st).2 = some m →
        m = { x := st.px, y := st.py, name := "Player",
              facing := st.facing, walking := st.walking })
    ∧ ((sendPosition st).2 = none → (sendPosition st).1 = st)
    ∧ ((sendPosition st).2 ≠ none →
        (sendPosition st).1 = { st with lastSentX := st.px, lastSentY := st.py }) := by
  by_cases h1 : st.wsOpen = false
  · simp [sendPosition, h1]
  · by_cases h2 : st.px = st.lastSentX ∧ st.py = st.lastSentY ∧ st.walking = false
    · simp [sendPosition, h1, h2]
    · simp [sendPosition, h1, h2, Bool.not_eq_false]

theorem sendPosition_guard_witness :
    (sendPosition c10St).2 ≠ none
    ∧ (sendPosition c10St).1 = { c10St with lastSentX := c10St.px, lastSentY := c10St.py } :=
  ⟨by decide, (sendPosition_guard c10St).2.2.2 (by decide)⟩

/-- C1: between two broadcast ticks, if two or more move messages from
connection A are handled (arbitrarily interleaved with other
connections' move messages), the next tick's `players` broadcast
contains exactly one entry for A, and that entry is the avatar state
produced by the last of A's messages; the tick sends that updates list
to every socket and clears the dirty set. -/
theorem tick_one_entry_last_write (st : ServerState) (A : String) (m : MoveMsg)
    (evs : List (String × MoveMsg))
    (hwf : WfPlayers st.players) (hnd : st.dirty.Nodup)
    (h2 : 2 ≤ (evs.filter fun e => e.1 = A).length)
    (hlast : (evs.filter fun e => e.1 = A).getLast? = some (A, m)) :
    ((tickUpdates (applyMoves evs st)).filter fun p => p.id = A) = [playerOfMove A m]
    ∧ tick (applyMoves evs st)
        = ({ applyMoves evs st with dirty := [] },
           (applyMoves evs st).sockets.map
             fun s => (s, ServerMsg.players (tickUpdates (applyMoves evs st)) false)) := by
  have hw2 : WfPlayers (applyMoves evs st).players := applyMoves_wf evs st hwf
  have hnd2 : (applyMoves evs st).dirty.Nodup := applyMoves_nodup evs st hnd
  have hexists : ∃ e ∈ evs, e.1 = A := by
    have hne : (evs.filter fun e => e.1 = A) ≠ [] := by
      intro hnil
      rw [hnil] at h2
      simp at h2
    rw [ne_eq, List.filter_eq_nil_iff] at hne
    push_neg at hne
    obtain ⟨e, he, hp⟩ := hne
    exact ⟨e, he, by simpa using hp⟩
  have hmem : A ∈ (applyMoves evs st).dirty := applyMoves_dirty_mem A evs st (Or.inr hexists)
  have hget : mapGet A (applyMoves evs st).players = some (playerOfMove A m) :=
    applyMoves_getLast A m evs st hlast
  constructor
  · rw [tickUpdates,
        filterMap_mapGet_filter A (applyMoves evs st).players hw2 (applyMoves evs st).dirty,
        filter_eq_singleton_of_nodup hnd2 hmem,
        List.filterMap_cons_some (f := fun i => mapGet i (applyMoves evs st).players) hget]
    rfl
  · have hne : (applyMoves evs st).dirty ≠ [] := List.ne_nil_of_mem hmem
    simp only [tick]
    rw [if_neg (by simp [List.isEmpty_iff, hne])]

theorem tick_one_entry_last_write_witness :
    (WfPlayers c1St.players ∧ c1St.dirty.Nodup
      ∧ 2 ≤ (c1Evs.filter fun e => e.1 = "a").length
      ∧ (c1Evs.filter fun e => e.1 = "a").getLast? = some ("a", c1Move2))
    ∧ ((tickUpdates (applyMoves c1Evs c1St)).filter fun p => p.id = "a")
        = [playerOfMove "a" c1Move2] :=
  ⟨⟨by unfold WfPlayers; decide, by decide, by decide, by decide⟩,
   (tick_one_entry_last_write c1St "a" c1Move2 c1Evs
     (by unfold WfPlayers; decide) (by decide) (by decide) (by decide)).1⟩

/-- C2: closing connection A removes its registry entry immediately and
sends, at close time (not on a tick), exactly one `leave` message
carrying A's id to every remaining socket and none to any other
recipient; a tick that still has A marked dirty omits A from its
broadcast, because the registry lookup at drain time misses and the
identifier is silently skipped. -/
theorem close_leave_and_tick_omission (st : ServerState) (A : String)
    (hwf : WfPlayers st.players) (hs : st.sockets.Nodup) (hd : A ∈ st.dirty) :
    mapGet A (onClose A st).1.players = none
    ∧ (∀ s ∈ (onClose A st).1.sockets,
        ((onClose A st).2.filter fun e => e.1 = s) = [(s, ServerMsg.leave A)])
    ∧ (∀ s, s ∉ (onClose A st).1.sockets →
        ((onClose A st).2.filter fun e => e.1 = s) = [])
    ∧ A ∈ (onClose A st).1.dirty
    ∧ ((tickUpdates (onClose A st).1).filter fun p => p.id = A) = [] := by
  have hsock : (onClose A st).1.sockets = setDelete A st.sockets := rfl
  have hmsg : (onClose A st).2
      = (setDelete A st.sockets).map (fun s => (s, ServerMsg.leave A)) := rfl
  have hnd' : (setDelete A st.sockets).Nodup := hs.filter _
  have hwf' : WfPlayers (onClose A st).1.players := wfPlayers_mapDelete hwf A
  refine ⟨mapGet_mapDelete_self A st.players, ?_, ?_, hd, ?_⟩
  · intro s hsm
    rw [hmsg, filter_fst_of_map (fun x => rfl) _ s,
        filter_eq_singleton_of_nodup hnd' (hsock ▸ hsm)]
    rfl
  · intro s hsm
    rw [hmsg, filter_fst_of_map (fun x => rfl) _ s,
        List.filter_eq_nil_iff.mpr fun x hx => by
          simp only [decide_eq_true_eq]
          intro hxs
          exact hsm (hsock ▸ hxs ▸ hx)]
    rfl
  · rw [show tickUpdates (onClose A st).1
        = st.dirty.filterMap (fun i => mapGet i (onClose A st).1.players) from rfl,
        filterMap_mapGet_filter A _ hwf' st.dirty]
    exact filterMap_mapGet_none (mapGet_mapDelete_self A st.players) _ fun b hb => by
      simpa using (List.mem_filter.mp hb).2

theorem close_leave_and_tick_omission_witness :
    (WfPlayers c2St.players ∧ c2St.sockets.Nodup ∧ "a" ∈ c2St.dirty)
    ∧ mapGet "a" (onClose "a" c2St).1.players = none
    ∧ ((onClose "a" c2St).2.filter fun e => e.1 = "b") = [("b", ServerMsg.leave "a")]
    ∧ ((tickUpdates (onClose "a" c2St).1).filter fun p => p.id = "a") = [] := by
  have h := close_leave_and_tick_omission c2St "a"
    (by unfold WfPlayers; decide) (by decide) (by decide)
  exact ⟨⟨by unfold WfPlayers; decide, by decide, by decide⟩, h.1,
         h.2.1 "b" (by decide), h.2.2.2.2⟩

/-- C7: for every room in the room list, after map construction every
cell on the room's border is blocked except exactly the doorway cell
centered on the bottom edge (row `room.y + room.h - 1`, column
`room.x + floor(room.w / 2)`), which is walkable. -/
theorem room_border_walls_except_door (r : Room) (hr : r ∈ rooms) (ty tx : Int)
    (hy1 : r.y ≤ ty) (hy2 : ty < r.y + r.h) (hx1 : r.x ≤ tx) (hx2 : tx < r.x + r.w)
    (hb : ty = r.y ∨ ty = r.y + r.h - 1 ∨ tx = r.x ∨ tx = r.x + r.w - 1) :
    ((ty = r.y + r.h - 1 ∧ tx = r.x + Int.fdiv r.w 2) → map ty tx = 0)
    ∧ (¬(ty = r.y + r.h - 1 ∧ tx = r.x + Int.fdiv r.w 2) → map ty tx = 1) := by
  simp only [rooms, List.mem_cons, List.not_mem_nil, or_false] at hr
  rcases hr with rfl | rfl | rfl
  · have h1 : (2:Int) ≤ ty := hy1
    have h2 : ty < 6 := hy2
    have h3 : (2:Int) ≤ tx := hx1
    have h4 : tx < 7 := hx2
    interval_cases ty <;> interval_cases tx <;> revert hb <;> decide
  · have h1 : (2:Int) ≤ ty := hy1
    have h2 : ty < 6 := hy2
    have h3 : (13:Int) ≤ tx := hx1
    have h4 : tx < 18 := hx2
    interval_cases ty <;> interval_cases tx <;> revert hb <;> decide
  · have h1 : (9:Int) ≤ ty := hy1
    have h2 : ty < 13 := hy2
    have h3 : (2:Int) ≤ tx := hx1
    have h4 : tx < 7 := hx2
    interval_cases ty <;> interval_cases tx <;> revert hb <;> decide

theorem room_border_walls_except_door_witness :
    (c7RoomA ∈ rooms
      ∧ ((5:Int) = c7RoomA.y + c7RoomA.h - 1 ∧ (4:Int) = c7RoomA.x + Int.fdiv c7RoomA.w 2))
    ∧ map 5 4 = 0 :=
  ⟨⟨by decide, by decide⟩,
   (room_border_walls_except_door c7RoomA (by decide) 5 4 (by decide) (by decide)
     (by decide) (by decide) (by decide)).1 (by decide)⟩

theorem othersGet_othersSet_ne (k myId : String) (v : OtherPlayer) (h : k ≠ myId) :
    ∀ o : List (String × OtherPlayer), othersGet myId (othersSet k v o) = othersGet myId o := by
  intro o
  induction o with
  | nil => simp [othersSet, othersGet, h]
  | cons e rest ih =>
    by_cases he : e.1 = k
    · have hem : e.1 ≠ myId := he ▸ h
      simp [othersSet, othersGet, he, h, hem]
    · by_cases hem : e.1 = myId
      · simp [othersSet, othersGet, he, hem, Ne.symm h]
      · simp [othersSet, othersGet, he, hem, ih]

theorem othersGet_foldl_ne_self (myId : String) (ps : List NetPlayer) :
    ∀ o : List (String × OtherPlayer),
      othersGet myId (ps.foldl (applyNetPlayer myId) o) = othersGet myId o := by
  induction ps with
  | nil => intro o; rfl
  | cons p rest ih =>
    intro o
    rw [List.foldl_cons, ih]
    unfold applyNetPlayer
    split
    · rename_i hne
      exact othersGet_othersSet_ne p.id myId _ hne o
    · rfl

/-- C8: handling an inbound `players` message (the client treats full
and incremental alike) only upserts remote-avatar entries: the local
player's own position, facing, and walking state are untouched, and an
entry whose id equals the client's own id is never applied (the `others`
entry under the client's own id is also unchanged). -/
theorem players_msg_preserves_local (ps : List NetPlayer) (st : ClientState) :
    (onPlayersMsg ps st).px = st.px
    ∧ (onPlayersMsg ps st).py = st.py
    ∧ (onPlayersMsg ps st).facing = st.facing
    ∧ (onPlayersMsg ps st).walking = st.walking
    ∧ othersGet st.myId (onPlayersMsg ps st).others = othersGet st.myId st.others :=
  ⟨rfl, rfl, rfl, rfl, othersGet_foldl_ne_self st.myId ps st.others⟩

end Tudoh
